import Mathlib

/-!
# Verification of the Chino thread/process scheduler core

Shallow embedding of `src/src/kernel/thread/ProcessManager.cpp`.

Modelling conventions:

* The intrusive `Chino::list` containers are modelled as Lean `List`s; since
  the code never removes an element, positions are stable and an iterator into
  a ready-queue slot is modelled as a pair (slot index, position index).
* Fatal `kassert` checks are modelled by `Option`: an operation returns `none`
  exactly when a `kassert` in its C++ body fires.
* The companion header `ProcessManager.hpp` is not part of the sources; the
  numeric constants it defines (`MAX_THREAD_PRIORITY` and the size of the
  `readyThreads_` array) are therefore taken as parameters: definitions take
  the maximum priority as an explicit argument, and the ready-queue array size
  is the length of the `readyThreads` field fixed at construction.
* A `HANDLE` is a reinterpreted list-node pointer in the C++ code.  Process
  handles are modelled as `Nat` with `0` the null handle and `pid + 1`
  denoting the process at index `pid`; thread handles are modelled as pairs
  (process index, thread index), which identify a list node uniquely because
  nodes are never removed or moved.
-/

namespace Chino

/-- A thread: fixed priority, entry point (modelled as a numeric code
address) and the single integer parameter passed at first resumption.
The saved execution context and the owned stack are identified with the
thread itself: the context block lives inside the `Thread` object, so its
address is determined by the thread's identity (its handle). -/
structure Thread where
  priority : Nat
  entryPoint : Nat
  parameter : Nat
deriving Repr, DecidableEq, Inhabited

/-- A process: display name and the ordered list of threads it owns
(`threads_` in the source, insertion order preserved). -/
structure Process where
  name : String
  threads : List Thread
deriving Repr, DecidableEq, Inhabited

/-- A thread handle: (index of the owning process, index of the thread in
that process's list).  Stable because entries are never removed. -/
abbrev ThreadHandle := Nat × Nat

/-- The scheduler state (`ProcessManager` fields in the source):
`_processes`, `readyThreads_` (array of per-priority queues of thread
handles), `runningThread_` (iterator into one of the queues, `none` when not
`good()`), `idleProcess_` (process handle, `none` for the null handle the
constructor writes). -/
structure ProcessManager where
  processes : List Process
  readyThreads : List (List ThreadHandle)
  runningThread : Option (Nat × Nat)
  idleProcess : Option Nat
deriving Repr, DecidableEq, Inhabited

/-- The freshly constructed manager: empty process list, `numSlots` empty
ready queues, null running thread and null idle process. -/
def initManager (numSlots : Nat) : ProcessManager :=
  { processes := [], readyThreads := List.replicate numSlots []
    runningThread := none, idleProcess := none }

/-- The queue `readyThreads_[p]` at priority `p`. -/
def slotAt (s : ProcessManager) (p : Nat) : List ThreadHandle :=
  s.readyThreads.getD p []

/-- Dereference a process index (unchecked, like the C++ pointer cast). -/
def procAt (s : ProcessManager) (pid : Nat) : Process :=
  s.processes.getD pid default

/-- Dereference a thread handle (unchecked, like `HandleToListIt<Thread>`). -/
def threadAt (s : ProcessManager) (h : ThreadHandle) : Thread :=
  (procAt s h.1).threads.getD h.2 default

/-- Constructor `Thread::Thread`: the body runs `kassert(priority <=
MAX_THREAD_PRIORITY)` then records the priority and initializes the context
for `entryPoint` with `parameter`; `none` models the fatal assertion. -/
def mkThread (maxThreadPriority : Nat) (entryPoint priority parameter : Nat) :
    Option Thread :=
  if priority ≤ maxThreadPriority then
    some { priority := priority, entryPoint := entryPoint, parameter := parameter }
  else none

/-- Operation `ProcessManager::AddReadyThread`: resolve the handle, read the thread's
priority, `kassert(priority < readyThreads_.size())`, append the handle at
the tail of that slot.  (The trailing `kassert(!readyThreads_[priority].empty())`
always holds after the append.) -/
def AddReadyThread (s : ProcessManager) (h : ThreadHandle) :
    Option ProcessManager :=
  let priority := (threadAt s h).priority
  if priority < s.readyThreads.length then
    some { s with readyThreads := s.readyThreads.set priority (slotAt s priority ++ [h]) }
  else none

/-- Operation `ProcessManager::Process::AddThread`: construct a `Thread` (4.2) at the
tail of the process's thread list, then `AddReadyThread` on its handle;
returns the new state and the new thread's handle. -/
def AddThread (maxThreadPriority : Nat) (s : ProcessManager) (pid : Nat)
    (entryPoint priority parameter : Nat) :
    Option (ProcessManager × ThreadHandle) :=
  match mkThread maxThreadPriority entryPoint priority parameter with
  | none => none
  | some t =>
    let p := procAt s pid
    let tidx := p.threads.length
    let newProcs := s.processes.set pid { p with threads := p.threads ++ [t] }
    let s1 := { s with processes := newProcs }
    (AddReadyThread s1 (pid, tidx)).map (fun s2 => (s2, (pid, tidx)))

/-- Operation `ProcessManager::CreateProcess`: append a new `Process` with the given
name, add its main thread with the given priority and parameter `0`, return
the new process's handle (`pid + 1`, nonzero as in the pointer model). -/
def CreateProcess (maxThreadPriority : Nat) (s : ProcessManager)
    (name : String) (mainThreadPriority entryPoint : Nat) :
    Option (ProcessManager × Nat) :=
  let pid := s.processes.length
  let s1 := { s with processes := s.processes ++ [{ name := name, threads := [] }] }
  (AddThread maxThreadPriority s1 pid entryPoint mainThreadPriority 0).map
    (fun x => (x.1, pid + 1))

/-- The code address of `IdleThreadMain` (an arbitrary fixed value: entry
points are identified only up to equality). -/
def idleThreadEntry : Nat := 0

/-- Operation `ProcessManager::StartScheduler`: first `kassert(!idleProcess_)`, then create
the "System Idle" process at priority 0 and record its handle.  The
subsequent `ArchSetupSchedulerTimer` / `ArchHaltProcessor` calls touch no
scheduler state and are not modelled. -/
def StartScheduler (maxThreadPriority : Nat) (s : ProcessManager) :
    Option ProcessManager :=
  match s.idleProcess with
  | some _ => none
  | none =>
    (CreateProcess maxThreadPriority s "System Idle" 0 idleThreadEntry).map
      (fun x => { x.1 with idleProcess := some x.2 })

/-- The successor step of `SelectNextSwitchToThread`: if `runningThread_`
is `good()` and `(++next).good()` (the cursor has a successor within its
slot), that successor is the candidate; otherwise no candidate yet. -/
def succCandidate (s : ProcessManager) : Option (Nat × Nat) :=
  match s.runningThread with
  | none => none
  | some (p, i) => if i + 1 < (slotAt s p).length then some (p, i + 1) else none

/-- The fallback scan `for (auto it = readyThreads_.rbegin(); ...)`: the
index of the last (= highest-priority) non-empty queue, if any. -/
def highestNonEmpty : List (List ThreadHandle) → Option Nat
  | [] => none
  | q :: rest =>
    match highestNonEmpty rest with
    | some i => some (i + 1)
    | none => if q.isEmpty then none else some 0

/-- Operation `ProcessManager::SelectNextSwitchToThread`: successor of the running
cursor when it exists, else the first entry of the highest-index non-empty
slot; `none` models the fatal `kassert(threadSwitchTo.good())`. -/
def SelectNextSwitchToThread (s : ProcessManager) : Option (Nat × Nat) :=
  match succCandidate s with
  | some c => some c
  | none => (highestNonEmpty s.readyThreads).map (fun p => (p, 0))

/-- Operation `ProcessManager::SwitchThreadContext`: select the next thread, store it
as `runningThread_`, and return (a reference to) the selected thread's
context — identified by the handle stored at the selected entry. -/
def SwitchThreadContext (s : ProcessManager) :
    Option (ProcessManager × ThreadHandle) :=
  (SelectNextSwitchToThread s).map (fun c =>
    ({ s with runningThread := some c }, (slotAt s c.1).getD c.2 default))

/-- Operation `ProcessManager::GetProcess`: first `kassert(handle)` (fatal on the null
handle), then an unchecked dereference of the handle as a process-list node
pointer — no range validation, so a nonzero handle always yields an entry
(an out-of-range one is undefined behaviour in the C++, modelled by the
`getD` default). -/
def GetProcess (s : ProcessManager) (handle : Nat) : Option Process :=
  if handle = 0 then none else some (s.processes.getD (handle - 1) default)

/-- The process-wide slot `g_CurrentThreadContext` next to the manager:
`none` models the initial null value. -/
structure KernelState where
  pm : ProcessManager
  currentThreadContext : Option ThreadHandle
deriving Repr, DecidableEq

/-- Entry point `Kernel_SwitchThreadContext`: run `SwitchThreadContext` and publish the
address of the selected thread's context in `g_CurrentThreadContext`. -/
def Kernel_SwitchThreadContext (k : KernelState) : Option KernelState :=
  (SwitchThreadContext k.pm).map (fun x => { pm := x.1, currentThreadContext := some x.2 })

/-- Number of occurrences of a handle in a queue (used to state the
ready-set invariant). -/
def countH (h : ThreadHandle) : List ThreadHandle → Nat
  | [] => 0
  | x :: xs => (if x = h then 1 else 0) + countH h xs

/-- A handle naming an existing thread of an existing process. -/
def validHandle (s : ProcessManager) (h : ThreadHandle) : Prop :=
  h.1 < s.processes.length ∧ h.2 < (procAt s h.1).threads.length

instance (s : ProcessManager) (h : ThreadHandle) : Decidable (validHandle s h) := by
  unfold validHandle; infer_instance

/-- The ready-set invariant of §3: every slot holds only handles of created
threads, and every created thread's handle occurs exactly once, in the slot
equal to its priority (which is in range). -/
def ReadyInv (s : ProcessManager) : Prop :=
  (∀ p, p < s.readyThreads.length → ∀ h ∈ slotAt s p, validHandle s h) ∧
  (∀ pid, pid < s.processes.length →
    ∀ t, t < (procAt s pid).threads.length →
      (threadAt s (pid, t)).priority < s.readyThreads.length ∧
      ∀ p, p < s.readyThreads.length →
        countH (pid, t) (slotAt s p) =
          if p = (threadAt s (pid, t)).priority then 1 else 0)

instance (s : ProcessManager) : Decidable (ReadyInv s) := by
  unfold ReadyInv; infer_instance

/-- Slots only ever grow: same number of slots, and every old slot is an
initial segment of the new one (no entry is ever removed). -/
def SlotsExtend (s s' : ProcessManager) : Prop :=
  s'.readyThreads.length = s.readyThreads.length ∧
  ∀ p, p < s.readyThreads.length → ∃ ext, slotAt s' p = slotAt s p ++ ext

end Chino

namespace Chino

/-! ### Helper lemmas about lists and the fallback scan -/

theorem countH_append (h : ThreadHandle) (l l' : List ThreadHandle) :
    countH h (l ++ l') = countH h l + countH h l' := by
  induction l with
  | nil => simp [countH]
  | cons x xs ih => simp [countH, ih]; omega

theorem countH_eq_zero_of_not_mem (h : ThreadHandle) (l : List ThreadHandle)
    (hm : h ∉ l) : countH h l = 0 := by
  induction l with
  | nil => rfl
  | cons x xs ih =>
    simp only [List.mem_cons, not_or] at hm
    simp [countH, Ne.symm hm.1, ih hm.2]

theorem getD_set_self {α : Type _} (l : List α) (i : Nat)
    (a d : α) (h : i < l.length) :
    (l.set i a).getD i d = a := by
  induction l generalizing i with
  | nil => simp at h
  | cons x xs ih =>
    cases i with
    | zero => simp
    | succ n => simpa using ih n (by simpa using h)

theorem getD_set_ne {α : Type _} (l : List α) (i j : Nat)
    (a d : α) (h : j ≠ i) :
    (l.set i a).getD j d = l.getD j d := by
  induction l generalizing i j with
  | nil => simp
  | cons x xs ih =>
    cases i with
    | zero => cases j with
      | zero => exact absurd rfl h
      | succ m => simp
    | succ n => cases j with
      | zero => simp
      | succ m => simpa using ih n m (by omega)

theorem set_append_len {α : Type _} (l : List α) (x y : α) :
    (l ++ [x]).set l.length y = l ++ [y] := by
  induction l with
  | nil => rfl
  | cons a as ih => simp [ih]

theorem getD_append_len {α : Type _} (l : List α) (x d : α) :
    (l ++ [x]).getD l.length d = x := by
  rw [List.getD_append_right l [x] d l.length le_rfl]
  simp

/-- If the fallback scan fails, every slot in range is empty. -/
theorem highestNonEmpty_none (qs : List (List ThreadHandle))
    (h : highestNonEmpty qs = none) :
    ∀ r, r < qs.length → qs.getD r [] = [] := by
  induction qs with
  | nil => intro r hr; simp at hr
  | cons q rest ih =>
    rw [highestNonEmpty] at h
    cases hr : highestNonEmpty rest with
    | some i => rw [hr] at h; simp at h
    | none =>
      rw [hr] at h
      by_cases hq : q.isEmpty
      · intro r hrlen
        cases r with
        | zero => simpa [List.isEmpty_iff] using hq
        | succ m => simpa using ih hr m (by simpa using hrlen)
      · rw [if_neg hq] at h; simp at h

/-- If the fallback scan returns a slot index, that slot is in range and
non-empty, and every higher-index slot is empty. -/
theorem highestNonEmpty_spec (qs : List (List ThreadHandle)) (p : Nat)
    (h : highestNonEmpty qs = some p) :
    p < qs.length ∧ qs.getD p [] ≠ [] ∧
      ∀ r, p < r → r < qs.length → qs.getD r [] = [] := by
  induction qs generalizing p with
  | nil => simp [highestNonEmpty] at h
  | cons q rest ih =>
    rw [highestNonEmpty] at h
    cases hr : highestNonEmpty rest with
    | some i =>
      rw [hr] at h
      obtain rfl : i + 1 = p := by simpa using h
      obtain ⟨h1, h2, h3⟩ := ih i hr
      refine ⟨by simpa using h1, by simpa using h2, ?_⟩
      intro r hlt hr'
      cases r with
      | zero => omega
      | succ m =>
        simpa using h3 m (by omega) (by simpa using hr')
    | none =>
      rw [hr] at h
      by_cases hq : q.isEmpty
      · simp [hq] at h
      · rw [if_neg hq] at h
        obtain rfl : 0 = p := by simpa using h
        refine ⟨by simp, by simpa [List.isEmpty_iff] using hq, ?_⟩
        intro r hlt hr'
        cases r with
        | zero => omega
        | succ m =>
          simpa using highestNonEmpty_none rest hr m (by simpa using hr')

/-- If some slot in range is non-empty, the fallback scan succeeds. -/
theorem highestNonEmpty_isSome (qs : List (List ThreadHandle)) (p : Nat)
    (hp : p < qs.length) (hne : qs.getD p [] ≠ []) :
    (highestNonEmpty qs).isSome := by
  induction qs generalizing p with
  | nil => simp at hp
  | cons q rest ih =>
    rw [highestNonEmpty]
    cases hr : highestNonEmpty rest with
    | some i => simp
    | none =>
      cases p with
      | zero =>
        have : ¬ q.isEmpty := by simpa [List.isEmpty_iff] using hne
        simp [this]
      | succ m =>
        have := ih m (by simpa using hp) (by simpa using hne)
        rw [hr] at this
        simp at this

/-- The fallback scan returns exactly the non-empty slot above which all
slots are empty. -/
theorem highestNonEmpty_eq (qs : List (List ThreadHandle)) (p : Nat)
    (hp : p < qs.length) (hne : qs.getD p [] ≠ [])
    (habove : ∀ r, p < r → r < qs.length → qs.getD r [] = []) :
    highestNonEmpty qs = some p := by
  cases h : highestNonEmpty qs with
  | none =>
    have := highestNonEmpty_isSome qs p hp hne
    rw [h] at this
    simp at this
  | some r =>
    obtain ⟨hr, hrne, hrmax⟩ := highestNonEmpty_spec qs r h
    rcases lt_trichotomy r p with hlt | heq | hgt
    · exact absurd (hrmax p hlt hp) hne
    · rw [heq]
    · exact absurd (habove r hgt hr) hrne

/-- If there is no running thread, or the running entry is the last of its
slot, the successor step of the selection yields no candidate. -/
theorem succCandidate_eq_none (s : ProcessManager)
    (h : s.runningThread = none ∨
      ∀ p i, s.runningThread = some (p, i) → ¬ i + 1 < (slotAt s p).length) :
    succCandidate s = none := by
  cases hrun : s.runningThread with
  | none => simp [succCandidate, hrun]
  | some c =>
    obtain ⟨p, i⟩ := c
    rcases h with h | h
    · rw [hrun] at h; exact absurd h (by simp)
    · simp [succCandidate, hrun, h p i hrun]

/-- Claim C1. Next-thread selection: if the running-thread cursor designates a
valid entry and that entry has a successor within its ready-queue slot,
`SelectNextSwitchToThread` returns that successor; otherwise (no running
thread, or the running thread is the last entry of its slot) it returns the
first entry of the non-empty ready-queue slot with the highest priority
index. -/
theorem selectNext_correct (s : ProcessManager) :
    (∀ p i, s.runningThread = some (p, i) → i + 1 < (slotAt s p).length →
      SelectNextSwitchToThread s = some (p, i + 1)) ∧
    ((s.runningThread = none ∨
        ∀ p i, s.runningThread = some (p, i) → ¬ i + 1 < (slotAt s p).length) →
      ∀ q, q < s.readyThreads.length → slotAt s q ≠ [] →
        ∃ r, r < s.readyThreads.length ∧ slotAt s r ≠ [] ∧
          (∀ u, r < u → u < s.readyThreads.length → slotAt s u = []) ∧
          SelectNextSwitchToThread s = some (r, 0)) := by
  constructor
  · intro p i hrun hsucc
    simp [SelectNextSwitchToThread, succCandidate, hrun, hsucc]
  · intro hno q hq hqne
    have hnone := succCandidate_eq_none s hno
    have hsome := highestNonEmpty_isSome s.readyThreads q hq hqne
    cases hh : highestNonEmpty s.readyThreads with
    | none => rw [hh] at hsome; simp at hsome
    | some r =>
      obtain ⟨h1, h2, h3⟩ := highestNonEmpty_spec s.readyThreads r hh
      exact ⟨r, h1, h2, fun u hu hu' => h3 u hu hu',
        by simp [SelectNextSwitchToThread, hnone, hh]⟩

/-- Witness for C1: in slot 1 holding two threads with the first one
running, the selection advances to the second. -/
theorem selectNext_correct_witness :
    SelectNextSwitchToThread
      { processes := [], readyThreads := [[], [(0, 0), (1, 0)]],
        runningThread := some (1, 0), idleProcess := none } = some (1, 1) :=
  (selectNext_correct
      { processes := [], readyThreads := [[], [(0, 0), (1, 0)]],
        runningThread := some (1, 0), idleProcess := none }).1 1 0 rfl (by decide)

/-- Claim C2. Fallback precedence: when the running thread has no successor
in its slot (or no thread runs), a non-empty slot below only empty slots is
the one selected, at its first entry; in particular a selection from slot 0
implies every higher slot is empty. -/
theorem fallback_priority (s : ProcessManager)
    (hno : s.runningThread = none ∨
      ∀ p i, s.runningThread = some (p, i) → ¬ i + 1 < (slotAt s p).length) :
    (∀ p, p < s.readyThreads.length → slotAt s p ≠ [] →
      (∀ q, p < q → q < s.readyThreads.length → slotAt s q = []) →
      SelectNextSwitchToThread s = some (p, 0)) ∧
    (∀ i, SelectNextSwitchToThread s = some (0, i) →
      ∀ q, 0 < q → q < s.readyThreads.length → slotAt s q = []) := by
  have hnone := succCandidate_eq_none s hno
  constructor
  · intro p hp hpne habove
    simp [SelectNextSwitchToThread, hnone,
      highestNonEmpty_eq s.readyThreads p hp hpne habove]
  · intro i hsel q hq hq'
    simp only [SelectNextSwitchToThread, hnone] at hsel
    cases hh : highestNonEmpty s.readyThreads with
    | none => rw [hh] at hsel; simp at hsel
    | some r =>
      rw [hh] at hsel
      simp only [Option.map_some', Option.some.injEq, Prod.mk.injEq] at hsel
      obtain ⟨rfl, -⟩ := hsel
      obtain ⟨-, -, h3⟩ := highestNonEmpty_spec s.readyThreads 0 hh
      exact h3 q hq hq'

/-- Witness for C2: with no running thread and only slot 2 of three slots
non-empty, the selection takes slot 2's first entry. -/
theorem fallback_priority_witness :
    SelectNextSwitchToThread
      { processes := [], readyThreads := [[(0, 0)], [], [(1, 0)]],
        runningThread := none, idleProcess := none } = some (2, 0) :=
  (fallback_priority
      { processes := [], readyThreads := [[(0, 0)], [], [(1, 0)]],
        runningThread := none, idleProcess := none } (Or.inl rfl)).1
    2 (by decide) (by decide)
    (by
      intro q h1 h2
      have h3 : q < 3 := by simpa using h2
      omega)

/-- Claim C3. If at least one ready-queue slot is non-empty, the fatal
`kassert(threadSwitchTo.good())` is unreachable: the selection returns an
entry. -/
theorem selectNext_isSome (s : ProcessManager)
    (h : ∃ p, p < s.readyThreads.length ∧ slotAt s p ≠ []) :
    (SelectNextSwitchToThread s).isSome := by
  obtain ⟨p, hp, hne⟩ := h
  cases hc : succCandidate s with
  | some c => simp [SelectNextSwitchToThread, hc]
  | none =>
    have hsome := highestNonEmpty_isSome s.readyThreads p hp hne
    cases hh : highestNonEmpty s.readyThreads with
    | none => rw [hh] at hsome; simp at hsome
    | some r => simp [SelectNextSwitchToThread, hc, hh]

/-- Witness for C3: a state whose slot 0 is non-empty yields a selection. -/
theorem selectNext_isSome_witness :
    (SelectNextSwitchToThread
      { processes := [], readyThreads := [[(0, 0)], []],
        runningThread := none, idleProcess := none }).isSome :=
  selectNext_isSome
    { processes := [], readyThreads := [[(0, 0)], []],
      runningThread := none, idleProcess := none }
    ⟨0, by decide, by decide⟩

/-! ### Characterizations of the mutating operations -/

/-- Running `AddReadyThread` on an in-range priority: append at the tail of the
matching slot. -/
theorem AddReadyThread_some (s : ProcessManager) (h : ThreadHandle)
    (hp : (threadAt s h).priority < s.readyThreads.length) :
    AddReadyThread s h = some
      { s with readyThreads := (s.readyThreads.set (threadAt s h).priority
          (slotAt s (threadAt s h).priority ++ [h])) } := by
  simp [AddReadyThread, hp]

/-- Running `AddReadyThread` on an out-of-range priority: the `kassert` fires. -/
theorem AddReadyThread_fatal (s : ProcessManager) (h : ThreadHandle)
    (hp : ¬ (threadAt s h).priority < s.readyThreads.length) :
    AddReadyThread s h = none := by
  simp [AddReadyThread, hp]

/-- Running `Process::AddThread` on an existing process with a legal, in-range
priority: the thread is appended to the process and its handle to the
matching slot. -/
theorem AddThread_some (maxP : Nat) (s : ProcessManager)
    (pid entry prio param : Nat) (hpid : pid < s.processes.length)
    (hprio : prio ≤ maxP) (hlt : prio < s.readyThreads.length) :
    AddThread maxP s pid entry prio param = some
      ({ s with
          processes := (s.processes.set pid
            { procAt s pid with
                threads := (procAt s pid).threads ++ [⟨prio, entry, param⟩] }),
          readyThreads := (s.readyThreads.set prio
            (slotAt s prio ++ [(pid, (procAt s pid).threads.length)])) },
       (pid, (procAt s pid).threads.length)) := by
  have hthread : threadAt
      { s with processes := (s.processes.set pid
          { procAt s pid with
              threads := (procAt s pid).threads ++ [⟨prio, entry, param⟩] }) }
      (pid, (procAt s pid).threads.length) = ⟨prio, entry, param⟩ := by
    simp only [threadAt, procAt]
    rw [getD_set_self _ _ _ _ hpid]
    exact getD_append_len _ _ _
  simp only [AddThread, mkThread, if_pos hprio]
  rw [AddReadyThread_some _ _ (by rw [hthread]; exact hlt)]
  simp [hthread, slotAt]

/-- Running `CreateProcess` with a legal, in-range priority: one process appended,
holding exactly one thread with the requested priority and parameter `0`,
whose handle lands at the tail of the matching slot. -/
theorem CreateProcess_some (maxP : Nat) (s : ProcessManager) (name : String)
    (prio entry : Nat) (hprio : prio ≤ maxP)
    (hlt : prio < s.readyThreads.length) :
    CreateProcess maxP s name prio entry = some
      ({ s with
          processes := (s.processes ++
            [{ name := name, threads := [⟨prio, entry, 0⟩] }]),
          readyThreads := (s.readyThreads.set prio
            (slotAt s prio ++ [(s.processes.length, 0)])) },
       s.processes.length + 1) := by
  have hpa : procAt
      { s with processes := s.processes ++ [{ name := name, threads := [] }] }
      s.processes.length = { name := name, threads := [] } := by
    simp only [procAt]
    exact getD_append_len _ _ _
  simp only [CreateProcess]
  rw [AddThread_some maxP _ s.processes.length entry prio 0
    (by simp) hprio (by simpa using hlt)]
  simp only [Option.map_some', hpa]
  rw [set_append_len]
  rfl

/-- Running `StartScheduler` on a state without an idle process (and a non-empty
slot array): creates the "System Idle" process at priority 0 and records
its handle. -/
theorem StartScheduler_some (maxP : Nat) (s : ProcessManager)
    (hidle : s.idleProcess = none) (hlt : 0 < s.readyThreads.length) :
    StartScheduler maxP s = some
      { s with
          processes := (s.processes ++
            [{ name := "System Idle", threads := [⟨0, idleThreadEntry, 0⟩] }]),
          readyThreads := (s.readyThreads.set 0
            (slotAt s 0 ++ [(s.processes.length, 0)])),
          idleProcess := some (s.processes.length + 1) } := by
  simp only [StartScheduler, hidle]
  rw [CreateProcess_some maxP s _ 0 idleThreadEntry (Nat.zero_le _) hlt]
  rfl

/-- Running `StartScheduler` when an idle process already exists: the `kassert`
fires. -/
theorem StartScheduler_fatal (maxP : Nat) (s : ProcessManager)
    (hidle : s.idleProcess ≠ none) : StartScheduler maxP s = none := by
  cases h : s.idleProcess with
  | none => exact absurd h hidle
  | some v => simp [StartScheduler, h]

/-- Claim C4. Calling `CreateProcess(name, p, entryPoint)` with a legal, in-range
priority appends exactly one new `Process` with that name, containing
exactly one `Thread` of priority `p` and parameter `0`, appends that
thread's handle to ready-queue slot `p`, and returns the handle of the new
process. -/
theorem CreateProcess_correct (maxP : Nat) (s : ProcessManager)
    (name : String) (prio entry : Nat) (hprio : prio ≤ maxP)
    (hlt : prio < s.readyThreads.length) :
    ∃ s', CreateProcess maxP s name prio entry = some (s', s.processes.length + 1) ∧
      s'.processes = s.processes ++
        [{ name := name,
           threads := [{ priority := prio, entryPoint := entry, parameter := 0 }] }] ∧
      GetProcess s' (s.processes.length + 1) =
        some { name := name,
               threads := [{ priority := prio, entryPoint := entry, parameter := 0 }] } ∧
      slotAt s' prio = slotAt s prio ++ [(s.processes.length, 0)] ∧
      (∀ q, q ≠ prio → slotAt s' q = slotAt s q) ∧
      s'.runningThread = s.runningThread ∧ s'.idleProcess = s.idleProcess := by
  refine ⟨_, CreateProcess_some maxP s name prio entry hprio hlt,
    rfl, ?_, ?_, ?_, rfl, rfl⟩
  · simp only [GetProcess]
    rw [if_neg (by omega)]
    simp only [Nat.add_sub_cancel]
    rw [getD_append_len]
  · simp only [slotAt]
    exact getD_set_self _ _ _ _ hlt
  · intro q hq
    simp only [slotAt]
    exact getD_set_ne _ _ _ _ _ hq

/-- Witness for C4: creating "A" at priority 2 in a fresh 4-slot manager. -/
theorem CreateProcess_correct_witness :
    ∃ s', CreateProcess 3 (initManager 4) "A" 2 9 = some (s', 1) ∧
      s'.processes = [Process.mk "A" [Thread.mk 2 9 0]] ∧
      GetProcess s' 1 = some (Process.mk "A" [Thread.mk 2 9 0]) ∧
      slotAt s' 2 = [(0, 0)] ∧
      (∀ q, q ≠ 2 → slotAt s' q = slotAt (initManager 4) q) ∧
      s'.runningThread = none ∧ s'.idleProcess = none :=
  CreateProcess_correct 3 (initManager 4) "A" 2 9 (by decide) (by decide)

/-- Claim C6. Calling `AddReadyThread(handle)`: with the thread's priority in range,
the handle goes to the tail of the slot at that priority (leaving it
non-empty and all other slots untouched); an out-of-range priority is the
fatal assertion. -/
theorem AddReadyThread_correct (s : ProcessManager) (h : ThreadHandle) :
    ((threadAt s h).priority < s.readyThreads.length →
      ∃ s', AddReadyThread s h = some s' ∧
        slotAt s' (threadAt s h).priority =
          slotAt s (threadAt s h).priority ++ [h] ∧
        slotAt s' (threadAt s h).priority ≠ [] ∧
        (∀ q, q ≠ (threadAt s h).priority → slotAt s' q = slotAt s q) ∧
        s'.processes = s.processes ∧ s'.runningThread = s.runningThread ∧
        s'.idleProcess = s.idleProcess) ∧
    (¬ (threadAt s h).priority < s.readyThreads.length →
      AddReadyThread s h = none) := by
  constructor
  · intro hp
    refine ⟨_, AddReadyThread_some s h hp, ?_, ?_, ?_, rfl, rfl, rfl⟩
    · simp only [slotAt]
      exact getD_set_self _ _ _ _ hp
    · simp only [slotAt]
      rw [getD_set_self _ _ _ _ hp]
      simp
    · intro q hq
      simp only [slotAt]
      exact getD_set_ne _ _ _ _ _ hq
  · exact AddReadyThread_fatal s h

/-- Witness for C6: enqueuing the only thread of the only process (priority
1) into a 2-slot manager lands in slot 1; the same state with the slot
array shrunk to one slot makes the assertion fire. -/
theorem AddReadyThread_correct_witness :
    (∃ s', AddReadyThread
        { processes := [{ name := "A", threads := [⟨1, 9, 0⟩] }],
          readyThreads := [[], []], runningThread := none, idleProcess := none }
        (0, 0) = some s' ∧
      slotAt s' 1 = [] ++ [(0, 0)] ∧ slotAt s' 1 ≠ [] ∧
      (∀ q, q ≠ 1 → slotAt s' q =
        slotAt (ProcessManager.mk [Process.mk "A" [Thread.mk 1 9 0]] [[], []] none none) q) ∧
      s'.processes = [{ name := "A", threads := [⟨1, 9, 0⟩] }] ∧
      s'.runningThread = none ∧ s'.idleProcess = none) ∧
    AddReadyThread
      { processes := [{ name := "A", threads := [⟨1, 9, 0⟩] }],
        readyThreads := [[]], runningThread := none, idleProcess := none }
      (0, 0) = none :=
  ⟨(AddReadyThread_correct
      { processes := [{ name := "A", threads := [⟨1, 9, 0⟩] }],
        readyThreads := [[], []], runningThread := none, idleProcess := none }
      (0, 0)).1 (by decide),
   (AddReadyThread_correct
      { processes := [{ name := "A", threads := [⟨1, 9, 0⟩] }],
        readyThreads := [[]], runningThread := none, idleProcess := none }
      (0, 0)).2 (by decide)⟩

/-- Claim C7. Calling `StartScheduler` with no idle process yet creates exactly one
process named "System Idle" whose main thread has priority 0 (its handle
appended to slot 0) and records it as the idle process; with the idle
process already set it is the fatal assertion. -/
theorem StartScheduler_correct (maxP : Nat) (s : ProcessManager)
    (hlt : 0 < s.readyThreads.length) :
    (s.idleProcess = none →
      ∃ s', StartScheduler maxP s = some s' ∧
        s'.processes = s.processes ++
          [{ name := "System Idle",
             threads := [{ priority := 0, entryPoint := idleThreadEntry,
                           parameter := 0 }] }] ∧
        s'.idleProcess = some (s.processes.length + 1) ∧
        slotAt s' 0 = slotAt s 0 ++ [(s.processes.length, 0)] ∧
        slotAt s' 0 ≠ [] ∧
        (∀ q, q ≠ 0 → slotAt s' q = slotAt s q) ∧
        s'.runningThread = s.runningThread) ∧
    (s.idleProcess ≠ none → StartScheduler maxP s = none) := by
  constructor
  · intro hidle
    refine ⟨_, StartScheduler_some maxP s hidle hlt, rfl, rfl, ?_, ?_, ?_, rfl⟩
    · simp only [slotAt]
      exact getD_set_self _ _ _ _ hlt
    · simp only [slotAt]
      rw [getD_set_self _ _ _ _ hlt]
      simp
    · intro q hq
      simp only [slotAt]
      exact getD_set_ne _ _ _ _ _ hq
  · exact StartScheduler_fatal maxP s

/-- Witness for C7: starting the scheduler on a fresh 2-slot manager, and
the fatal second start on the resulting state. -/
theorem StartScheduler_correct_witness :
    (∃ s', StartScheduler 3 (initManager 2) = some s' ∧
      s'.processes = [Process.mk "System Idle" [Thread.mk 0 idleThreadEntry 0]] ∧
      s'.idleProcess = some 1 ∧
      slotAt s' 0 = [(0, 0)] ∧ slotAt s' 0 ≠ [] ∧
      (∀ q, q ≠ 0 → slotAt s' q = slotAt (initManager 2) q) ∧
      s'.runningThread = none) ∧
    StartScheduler 3
      { processes := [], readyThreads := [[], []],
        runningThread := none, idleProcess := some 1 } = none :=
  ⟨(StartScheduler_correct 3 (initManager 2) (by decide)).1 rfl,
   (StartScheduler_correct 3
      { processes := [], readyThreads := [[], []],
        runningThread := none, idleProcess := some 1 } (by decide)).2
     (by decide)⟩

/-- Claim C8. Thread construction fails with the fatal assertion if and only
if the requested priority exceeds `MAX_THREAD_PRIORITY`; construction at
exactly `MAX_THREAD_PRIORITY` succeeds. -/
theorem Thread_construct_correct (maxP entry prio param : Nat) :
    (mkThread maxP entry prio param = none ↔ maxP < prio) ∧
    (mkThread maxP entry maxP param).isSome := by
  constructor
  · by_cases h : prio ≤ maxP
    · simp [mkThread, h]
    · simp [mkThread, h]
      omega
  · simp [mkThread]

/-- Claim C9. In `Kernel_SwitchThreadContext`, when selection succeeds, one
invocation sets the running cursor to the selected entry, publishes exactly
that thread's context (identified by the handle stored at the entry) in
`g_CurrentThreadContext`, and leaves the ready queues, process collection
and idle-process handle unchanged. -/
theorem Kernel_SwitchThreadContext_correct (k : KernelState) (c : Nat × Nat)
    (hsel : SelectNextSwitchToThread k.pm = some c) :
    ∃ k', Kernel_SwitchThreadContext k = some k' ∧
      k'.pm.runningThread = some c ∧
      k'.currentThreadContext = some ((slotAt k.pm c.1).getD c.2 default) ∧
      k'.pm.readyThreads = k.pm.readyThreads ∧
      k'.pm.processes = k.pm.processes ∧
      k'.pm.idleProcess = k.pm.idleProcess := by
  refine ⟨{ pm := { k.pm with runningThread := some c },
            currentThreadContext := some ((slotAt k.pm c.1).getD c.2 default) },
    ?_, rfl, rfl, rfl, rfl, rfl⟩
  simp [Kernel_SwitchThreadContext, SwitchThreadContext, hsel]

/-- Witness for C9: one process with one priority-0 thread and no running
thread; the switch selects entry (0,0) and publishes handle (0,0). -/
theorem Kernel_SwitchThreadContext_correct_witness :
    ∃ k', Kernel_SwitchThreadContext
        { pm := { processes := [{ name := "A", threads := [⟨0, 5, 0⟩] }],
                  readyThreads := [[(0, 0)]], runningThread := none,
                  idleProcess := none },
          currentThreadContext := none } = some k' ∧
      k'.pm.runningThread = some (0, 0) ∧
      k'.currentThreadContext = some (0, 0) ∧
      k'.pm.readyThreads = [[(0, 0)]] ∧
      k'.pm.processes = [{ name := "A", threads := [⟨0, 5, 0⟩] }] ∧
      k'.pm.idleProcess = none :=
  Kernel_SwitchThreadContext_correct
    { pm := { processes := [{ name := "A", threads := [⟨0, 5, 0⟩] }],
              readyThreads := [[(0, 0)]], runningThread := none,
              idleProcess := none },
      currentThreadContext := none } (0, 0) (by decide)

/-- Claim C10. Calling `GetProcess(handle)` is the fatal assertion exactly on the
null handle, and on every nonzero handle returns the dereferenced entry
with no further validation. -/
theorem GetProcess_correct (s : ProcessManager) (handle : Nat) :
    (GetProcess s handle = none ↔ handle = 0) ∧
    (handle ≠ 0 →
      GetProcess s handle = some (s.processes.getD (handle - 1) default)) := by
  by_cases h : handle = 0 <;> simp [GetProcess, h]

/-- Witness for C10: handle 1 on a one-process state dereferences to that
process. -/
theorem GetProcess_correct_witness :
    GetProcess
      { processes := [{ name := "A", threads := [] }], readyThreads := [],
        runningThread := none, idleProcess := none } 1 =
      some { name := "A", threads := [] } :=
  (GetProcess_correct
    { processes := [{ name := "A", threads := [] }], readyThreads := [],
      runningThread := none, idleProcess := none } 1).2 (by decide)


/-! ### The ready-set invariant: helper lemmas -/

theorem countH_singleton (h x : ThreadHandle) :
    countH h [x] = if x = h then 1 else 0 := by
  simp [countH]

/-- The invariant only looks at the process collection and the ready
queues. -/
theorem ReadyInv_congr (s s' : ProcessManager) (hp : s'.processes = s.processes)
    (hr : s'.readyThreads = s.readyThreads) (h : ReadyInv s) : ReadyInv s' := by
  have hslot : ∀ p, slotAt s' p = slotAt s p := fun p => by unfold slotAt; rw [hr]
  have hproc : ∀ q, procAt s' q = procAt s q := fun q => by unfold procAt; rw [hp]
  have hthread : ∀ hd : ThreadHandle, threadAt s' hd = threadAt s hd := fun hd => by
    unfold threadAt; rw [hproc]
  have hvalid : ∀ hd : ThreadHandle, validHandle s hd → validHandle s' hd := by
    intro hd hv
    obtain ⟨a, b⟩ := hv
    exact ⟨by rw [hp]; exact a, by rw [hproc]; exact b⟩
  obtain ⟨h1, h2⟩ := h
  constructor
  · intro p hpl hd hm
    rw [hr] at hpl
    rw [hslot] at hm
    exact hvalid hd (h1 p hpl hd hm)
  · intro q hq u hu
    rw [hp] at hq
    rw [hproc] at hu
    obtain ⟨c1, c2⟩ := h2 q hq u hu
    refine ⟨by rw [hthread, hr]; exact c1, ?_⟩
    intro p hpl
    rw [hr] at hpl
    rw [hslot, hthread]
    exact c2 p hpl

/-- Unchanged ready queues trivially extend themselves. -/
theorem SlotsExtend_of_eqReady (s s' : ProcessManager)
    (h : s'.readyThreads = s.readyThreads) : SlotsExtend s s' :=
  ⟨by rw [h], fun p _ => ⟨[], by unfold slotAt; rw [h]; simp⟩⟩

/-- Appending one handle to one slot extends the queues. -/
theorem SlotsExtend_setSlot (s s' : ProcessManager) (pr : Nat) (x : ThreadHandle)
    (h : s'.readyThreads = s.readyThreads.set pr (slotAt s pr ++ [x])) :
    SlotsExtend s s' := by
  constructor
  · rw [h, List.length_set]
  · intro p hp
    by_cases hpp : p = pr
    · subst hpp
      exact ⟨[x], by unfold slotAt; rw [h]; exact getD_set_self _ _ _ _ hp⟩
    · refine ⟨[], ?_⟩
      unfold slotAt
      rw [h, getD_set_ne _ _ _ _ _ hpp]
      simp

/-- The thread just appended to process `pid` is found at index
`(procAt s pid).threads.length`. -/
theorem threadAt_after_append (s : ProcessManager) (pid : Nat) (t : Thread)
    (hpid : pid < s.processes.length) :
    threadAt
      { s with processes := (s.processes.set pid
          { procAt s pid with threads := ((procAt s pid).threads ++ [t]) }) }
      (pid, (procAt s pid).threads.length) = t := by
  show ((s.processes.set pid
      { procAt s pid with threads := ((procAt s pid).threads ++ [t]) }).getD
        pid default).threads.getD (procAt s pid).threads.length default = t
  rw [getD_set_self _ _ _ _ hpid]
  exact getD_append_len _ _ _

/-- Appending an (empty) process preserves the ready-set invariant. -/
theorem ReadyInv_appendEmptyProcess (s : ProcessManager) (name : String)
    (hInv : ReadyInv s) :
    ReadyInv { s with processes := (s.processes ++ [{ name := name, threads := [] }]) } := by
  obtain ⟨hMem, hCnt⟩ := hInv
  have hproc : ∀ q, q < s.processes.length →
      procAt { s with processes := (s.processes ++ [{ name := name, threads := [] }]) } q
        = procAt s q := by
    intro q hq
    show (s.processes ++ [Process.mk name []]).getD q default = _
    exact List.getD_append _ _ _ _ hq
  have hprocLast :
      procAt { s with processes := (s.processes ++ [{ name := name, threads := [] }]) }
        s.processes.length = { name := name, threads := [] } := by
    show (s.processes ++ [Process.mk name []]).getD s.processes.length default = _
    exact getD_append_len _ _ _
  constructor
  · intro p hp hd hm
    obtain ⟨h1, h2⟩ := hMem p hp hd hm
    refine ⟨?_, ?_⟩
    · show hd.1 < (s.processes ++ [Process.mk name []]).length
      rw [List.length_append]
      omega
    · rw [hproc hd.1 h1]
      exact h2
  · intro q hq u hu
    have hq2 : q < s.processes.length + 1 := by
      simpa using hq
    have hq' : q < s.processes.length := by
      rcases Nat.lt_succ_iff_lt_or_eq.mp hq2 with h | h
      · exact h
      · exfalso
        subst h
        rw [hprocLast] at hu
        simp at hu
    rw [hproc q hq'] at hu
    obtain ⟨c1, c2⟩ := hCnt q hq' u hu
    have hth : threadAt
        { s with processes := (s.processes ++ [{ name := name, threads := [] }]) }
        (q, u) = threadAt s (q, u) := by
      show (procAt { s with processes := (s.processes ++ [{ name := name, threads := [] }]) } q).threads.getD u default
        = (procAt s q).threads.getD u default
      rw [hproc q hq']
    rw [hth]
    exact ⟨c1, c2⟩

/-- Appending a thread of in-range priority to an existing process, and its
handle to the matching slot, preserves the ready-set invariant. -/
theorem ReadyInv_addThread (s s' : ProcessManager) (pid : Nat) (t : Thread)
    (hpid : pid < s.processes.length) (hlt : t.priority < s.readyThreads.length)
    (hP : s'.processes = s.processes.set pid
      { procAt s pid with threads := ((procAt s pid).threads ++ [t]) })
    (hR : s'.readyThreads = s.readyThreads.set t.priority
      (slotAt s t.priority ++ [(pid, (procAt s pid).threads.length)]))
    (hInv : ReadyInv s) : ReadyInv s' := by
  obtain ⟨hMem, hCnt⟩ := hInv
  have hlenP : s'.processes.length = s.processes.length := by
    rw [hP, List.length_set]
  have hlenR : s'.readyThreads.length = s.readyThreads.length := by
    rw [hR, List.length_set]
  have hprocPid : procAt s' pid
      = { procAt s pid with threads := ((procAt s pid).threads ++ [t]) } := by
    unfold procAt
    rw [hP]
    exact getD_set_self _ _ _ _ hpid
  have hprocNe : ∀ q, q ≠ pid → procAt s' q = procAt s q := by
    intro q hq
    unfold procAt
    rw [hP]
    exact getD_set_ne _ _ _ _ _ hq
  have hslotPr : slotAt s' t.priority
      = slotAt s t.priority ++ [(pid, (procAt s pid).threads.length)] := by
    unfold slotAt
    rw [hR]
    exact getD_set_self _ _ _ _ hlt
  have hslotNe : ∀ p, p ≠ t.priority → slotAt s' p = slotAt s p := by
    intro p hp
    unfold slotAt
    rw [hR]
    exact getD_set_ne _ _ _ _ _ hp
  have hthreadOld : ∀ q u, (q ≠ pid ∨ u < (procAt s pid).threads.length) →
      threadAt s' (q, u) = threadAt s (q, u) := by
    intro q u hqu
    show (procAt s' q).threads.getD u default = (procAt s q).threads.getD u default
    by_cases hqp : q = pid
    · subst hqp
      rw [hprocPid]
      rcases hqu with hq | hu
      · exact absurd rfl hq
      · exact List.getD_append _ _ _ _ hu
    · rw [hprocNe q hqp]
  have hthreadNew : threadAt s' (pid, (procAt s pid).threads.length) = t := by
    show (procAt s' pid).threads.getD (procAt s pid).threads.length default = t
    rw [hprocPid]
    exact getD_append_len _ _ _
  have hvalidUp : ∀ hd : ThreadHandle, validHandle s hd → validHandle s' hd := by
    intro hd hv
    obtain ⟨h1, h2⟩ := hv
    refine ⟨by rw [hlenP]; exact h1, ?_⟩
    by_cases hqp : hd.1 = pid
    · rw [hqp, hprocPid]
      show hd.2 < ((procAt s pid).threads ++ [t]).length
      rw [List.length_append]
      rw [hqp] at h2
      omega
    · rw [hprocNe hd.1 hqp]
      exact h2
  have hvalidNew : validHandle s' (pid, (procAt s pid).threads.length) := by
    refine ⟨by rw [hlenP]; exact hpid, ?_⟩
    show (procAt s pid).threads.length < (procAt s' pid).threads.length
    rw [hprocPid]
    show (procAt s pid).threads.length < ((procAt s pid).threads ++ [t]).length
    rw [List.length_append]
    simp
  constructor
  · intro p hp hd hm
    rw [hlenR] at hp
    by_cases hpt : p = t.priority
    · subst hpt
      rw [hslotPr] at hm
      rcases List.mem_append.mp hm with h | h
      · exact hvalidUp hd (hMem _ hp hd h)
      · have : hd = (pid, (procAt s pid).threads.length) := by simpa using h
        rw [this]
        exact hvalidNew
    · rw [hslotNe p hpt] at hm
      exact hvalidUp hd (hMem p hp hd hm)
  · intro q hq u hu
    rw [hlenP] at hq
    by_cases hqp : q = pid
    · subst hqp
      rw [hprocPid] at hu
      have hu2 : u < (procAt s q).threads.length + 1 := by
        simpa using hu
      rcases Nat.lt_succ_iff_lt_or_eq.mp hu2 with hult | hueq
      · -- an old thread of process pid
        have hth := hthreadOld q u (Or.inr hult)
        obtain ⟨c1, c2⟩ := hCnt q hq u hult
        refine ⟨by rw [hth, hlenR]; exact c1, ?_⟩
        intro p hpl
        rw [hlenR] at hpl
        rw [hth]
        by_cases hpt : p = t.priority
        · subst hpt
          rw [hslotPr, countH_append, countH_singleton]
          have hne : ((q : Nat), (procAt s q).threads.length) ≠ ((q : Nat), u) := by
            intro hcon
            have := congrArg Prod.snd hcon
            simp at this
            omega
          rw [if_neg hne]
          rw [c2 _ hpl]
          exact Nat.add_zero _
        · rw [hslotNe p hpt]
          exact c2 p hpl
      · -- the newly added thread
        subst hueq
        refine ⟨by rw [hthreadNew, hlenR]; exact hlt, ?_⟩
        intro p hpl
        rw [hlenR] at hpl
        rw [hthreadNew]
        have hnot : ((q : Nat), (procAt s q).threads.length) ∉ slotAt s p := by
          intro hmem
          have hv := hMem p hpl _ hmem
          obtain ⟨v1, v2⟩ := hv
          simp at v2
        by_cases hpt : p = t.priority
        · subst hpt
          rw [hslotPr, countH_append, countH_singleton,
            countH_eq_zero_of_not_mem _ _ hnot]
          simp
        · rw [hslotNe p hpt, countH_eq_zero_of_not_mem _ _ hnot]
          rw [if_neg hpt]
    · -- a thread of another process
      rw [hprocNe q hqp] at hu
      have hth := hthreadOld q u (Or.inl hqp)
      obtain ⟨c1, c2⟩ := hCnt q hq u hu
      refine ⟨by rw [hth, hlenR]; exact c1, ?_⟩
      intro p hpl
      rw [hlenR] at hpl
      rw [hth]
      by_cases hpt : p = t.priority
      · subst hpt
        rw [hslotPr, countH_append, countH_singleton]
        have hne : ((pid : Nat), (procAt s pid).threads.length) ≠ ((q : Nat), u) := by
          intro hcon
          have := congrArg Prod.fst hcon
          simp at this
          exact hqp this.symm
        rw [if_neg hne, c2 _ hpl]
        exact Nat.add_zero _
      · rw [hslotNe p hpt]
        exact c2 p hpl


/-- A successful `AddThread` on an existing process implies the priority
passed both `kassert`s: legal for the `Thread` constructor and in range for
the ready-queue array. -/
theorem AddThread_inv (maxP : Nat) (s : ProcessManager)
    (pid entry prio param : Nat) (x : ProcessManager × ThreadHandle)
    (hpid : pid < s.processes.length)
    (h : AddThread maxP s pid entry prio param = some x) :
    prio ≤ maxP ∧ prio < s.readyThreads.length := by
  by_cases h1 : prio ≤ maxP
  · refine ⟨h1, ?_⟩
    by_cases h2 : prio < s.readyThreads.length
    · exact h2
    · exfalso
      have hfatal : AddReadyThread
          { s with processes := (s.processes.set pid
            { procAt s pid with threads := ((procAt s pid).threads ++ [Thread.mk prio entry param]) }) }
          (pid, (procAt s pid).threads.length) = none := by
        apply AddReadyThread_fatal
        rw [threadAt_after_append s pid _ hpid]
        exact h2
      simp only [AddThread, mkThread, if_pos h1] at h
      rw [hfatal] at h
      simp at h
  · exfalso
    simp [AddThread, mkThread, h1] at h

/-- A successful `CreateProcess` preserves the ready-set invariant and only
extends the queues. -/
theorem ReadyInv_CreateProcessOp (maxP : Nat) (s : ProcessManager)
    (name : String) (prio entry : Nat) (s' : ProcessManager) (hdl : Nat)
    (hInv : ReadyInv s) (h : CreateProcess maxP s name prio entry = some (s', hdl)) :
    ReadyInv s' ∧ SlotsExtend s s' := by
  simp only [CreateProcess] at h
  obtain ⟨y, hA, hmap⟩ := Option.map_eq_some'.mp h
  have h1 : y.1 = s' := congrArg Prod.fst hmap
  subst h1
  obtain ⟨hprio, hlt⟩ := AddThread_inv maxP _ s.processes.length entry prio 0 y
    (by simp) hA
  rw [AddThread_some maxP _ s.processes.length entry prio 0 (by simp) hprio hlt] at hA
  have h2 := Option.some.inj hA
  subst h2
  constructor
  · exact ReadyInv_addThread
      { s with processes := (s.processes ++ [{ name := name, threads := [] }]) }
      _ s.processes.length ⟨prio, entry, 0⟩ (by simp) hlt rfl rfl
      (ReadyInv_appendEmptyProcess s name hInv)
  · exact SlotsExtend_setSlot s _ prio _ rfl

/-- A successful standalone `AddThread` preserves the ready-set invariant
and only extends the queues. -/
theorem ReadyInv_AddThreadOp (maxP : Nat) (s : ProcessManager)
    (pid entry prio param : Nat) (s' : ProcessManager) (hd : ThreadHandle)
    (hInv : ReadyInv s) (hpid : pid < s.processes.length)
    (h : AddThread maxP s pid entry prio param = some (s', hd)) :
    ReadyInv s' ∧ SlotsExtend s s' := by
  obtain ⟨h1, h2⟩ := AddThread_inv maxP s pid entry prio param _ hpid h
  rw [AddThread_some maxP s pid entry prio param hpid h1 h2] at h
  have h3 := Option.some.inj h
  have h4 : _ = s' := congrArg Prod.fst h3
  subst h4
  constructor
  · exact ReadyInv_addThread s _ pid ⟨prio, entry, param⟩ hpid h2 rfl rfl hInv
  · exact SlotsExtend_setSlot s _ prio _ rfl

/-- A successful `StartScheduler` preserves the ready-set invariant and
only extends the queues. -/
theorem ReadyInv_StartSchedulerOp (maxP : Nat) (s s' : ProcessManager)
    (hInv : ReadyInv s) (h : StartScheduler maxP s = some s') :
    ReadyInv s' ∧ SlotsExtend s s' := by
  unfold StartScheduler at h
  cases hi : s.idleProcess with
  | some v => rw [hi] at h; simp at h
  | none =>
    rw [hi] at h
    obtain ⟨x, hC, hmap⟩ := Option.map_eq_some'.mp h
    obtain ⟨hR1, hS1⟩ := ReadyInv_CreateProcessOp maxP s _ 0 idleThreadEntry x.1 x.2
      hInv (by rw [hC])
    subst hmap
    constructor
    · exact ReadyInv_congr x.1 _ rfl rfl hR1
    · obtain ⟨e1, e2⟩ := hS1
      exact ⟨e1, e2⟩

/-- Operation `SwitchThreadContext` touches only the running cursor: invariant and
queues untouched. -/
theorem ReadyInv_SwitchOp (s s' : ProcessManager) (hd : ThreadHandle)
    (hInv : ReadyInv s) (h : SwitchThreadContext s = some (s', hd)) :
    ReadyInv s' ∧ SlotsExtend s s' := by
  unfold SwitchThreadContext at h
  obtain ⟨c, hsel, hmap⟩ := Option.map_eq_some'.mp h
  have h1 : ({ s with runningThread := some c } : ProcessManager) = s' :=
    congrArg Prod.fst hmap
  subst h1
  exact ⟨ReadyInv_congr s _ rfl rfl hInv, SlotsExtend_of_eqReady s _ rfl⟩

/-- A successful `AddReadyThread` never removes a queue entry. -/
theorem SlotsExtend_AddReadyThreadOp (s s' : ProcessManager) (hd : ThreadHandle)
    (h : AddReadyThread s hd = some s') : SlotsExtend s s' := by
  by_cases hp : (threadAt s hd).priority < s.readyThreads.length
  · rw [AddReadyThread_some s hd hp] at h
    obtain rfl := Option.some.inj h
    exact SlotsExtend_setSlot s _ (threadAt s hd).priority hd rfl
  · rw [AddReadyThread_fatal s hd hp] at h
    simp at h

/-- Claim C5 (amended).  The operations `CreateProcess`, `AddThread` on an existing process,
`StartScheduler` and `SwitchThreadContext` each preserve the ready-set
invariant — every created thread's handle sits in exactly one slot, the one
equal to its priority, exactly once — and no operation, `AddReadyThread`
included, ever removes an entry from any slot.  (Standalone `AddReadyThread`
does not preserve the invariant itself: re-enqueuing an already-enqueued
handle duplicates it, see the counterexample.) -/
theorem readyInv_preserved (maxP : Nat) (s : ProcessManager) (hInv : ReadyInv s) :
    (∀ name prio entry s' hdl,
      CreateProcess maxP s name prio entry = some (s', hdl) →
        ReadyInv s' ∧ SlotsExtend s s') ∧
    (∀ pid entry prio param s' hd, pid < s.processes.length →
      AddThread maxP s pid entry prio param = some (s', hd) →
        ReadyInv s' ∧ SlotsExtend s s') ∧
    (∀ s', StartScheduler maxP s = some s' → ReadyInv s' ∧ SlotsExtend s s') ∧
    (∀ s' hd, SwitchThreadContext s = some (s', hd) → ReadyInv s' ∧ SlotsExtend s s') ∧
    (∀ hd s', AddReadyThread s hd = some s' → SlotsExtend s s') :=
  ⟨fun name prio entry s' hdl h =>
      ReadyInv_CreateProcessOp maxP s name prio entry s' hdl hInv h,
   fun pid entry prio param s' hd hpid h =>
      ReadyInv_AddThreadOp maxP s pid entry prio param s' hd hInv hpid h,
   fun s' h => ReadyInv_StartSchedulerOp maxP s s' hInv h,
   fun s' hd h => ReadyInv_SwitchOp s s' hd hInv h,
   fun hd s' h => SlotsExtend_AddReadyThreadOp s s' hd h⟩

/-- Counterexample to C5 as stated: `AddReadyThread` alone does not
preserve the ready-set invariant — on a state satisfying it, re-enqueuing
the already-enqueued handle (0,0) yields a state where the handle occurs
twice in slot 0. -/
theorem addReadyThread_breaks_readyInv :
    ReadyInv (ProcessManager.mk [Process.mk "A" [Thread.mk 0 7 0]] [[(0, 0)]] none none) ∧
    AddReadyThread (ProcessManager.mk [Process.mk "A" [Thread.mk 0 7 0]] [[(0, 0)]] none none)
      (0, 0) =
      some (ProcessManager.mk [Process.mk "A" [Thread.mk 0 7 0]] [[(0, 0), (0, 0)]] none none) ∧
    ¬ ReadyInv (ProcessManager.mk [Process.mk "A" [Thread.mk 0 7 0]]
      [[(0, 0), (0, 0)]] none none) :=
  ⟨by decide, by decide, by decide⟩

/-- Witness for C5 (amended): creating "A" at priority 1 from the fresh
2-slot manager preserves the invariant and extends the queues. -/
theorem readyInv_preserved_witness :
    ReadyInv (ProcessManager.mk [Process.mk "A" [Thread.mk 1 9 0]] [[], [(0, 0)]] none none) ∧
    SlotsExtend (initManager 2)
      (ProcessManager.mk [Process.mk "A" [Thread.mk 1 9 0]] [[], [(0, 0)]] none none) :=
  (readyInv_preserved 3 (initManager 2) (by decide)).1 "A" 1 9
    (ProcessManager.mk [Process.mk "A" [Thread.mk 1 9 0]] [[], [(0, 0)]] none none) 1
    (by decide)

end Chino
